import Mathlib

/-!
Verification of the `global-connectivity-trends-2000-2024` pipeline.

This file gives a shallow embedding of the three pipeline stages
(`src/fetch_worldbank_data.py`, `src/data_cleaning.py`,
`analysis/generate_visualizations.py`) and proves, or refutes, the
specification claims about them.  Pandas tables are modelled as Lean
lists of typed rows; cells that can be missing are modelled with an
explicit `null` constructor or with `Option`; numbers are modelled by
rationals (the pipeline only parses, compares and copies them, so no
float rounding is involved); Python exceptions are modelled with
`Except`.
-/

namespace Conn

/-- A raw table cell as pandas sees it after `read_csv` /
`pd.DataFrame(...)`: missing (`NaN`), a text value, or a numeric value. -/
inductive Cell where
  | null
  | str (s : String)
  | num (q : ℚ)
deriving DecidableEq, Repr

/-- The Python exceptions the embedded code fragments can raise. -/
inductive PyErr where
  | typeError
  | attributeError
  | indexError
  | keyError
deriving DecidableEq, Repr

/-! ### Numeric parsing (`pd.to_numeric(..., errors="coerce")`) -/

/-- Numeric value of one decimal digit character. -/
def digitVal (c : Char) : Nat := c.toNat - '0'.toNat

/-- Numeric value of a digit string, most significant digit first. -/
def digitsVal (cs : List Char) : Nat :=
  List.foldl (fun acc c => 10 * acc + digitVal c) 0 cs

/-- All characters are decimal digits. -/
def allDigits (cs : List Char) : Bool := cs.all Char.isDigit

/-- Split a character list at its first dot, if any. -/
def splitDot : List Char → Option (List Char × List Char)
  | [] => none
  | c :: cs =>
    if c = '.' then some ([], cs)
    else match splitDot cs with
      | none => none
      | some (a, b) => some (c :: a, b)

/-- Parse an unsigned decimal numeral: digits with at most one dot and at
least one digit overall (`"2000"`, `"55.5"`, `"2000."`, `".5"`). -/
def parseUnsigned (cs : List Char) : Option ℚ :=
  match splitDot cs with
  | none =>
    if cs.isEmpty then none
    else if allDigits cs then some (mkRat (digitsVal cs) 1) else none
  | some (ip, fp) =>
    if ip.isEmpty && fp.isEmpty then none
    else if allDigits ip && allDigits fp then
      some (mkRat (digitsVal (ip ++ fp)) (10 ^ fp.length))
    else none

/-- `pd.to_numeric(x, errors="coerce")` on one cell: numbers pass
through, numeric-looking strings are parsed, anything else (including
`"n/a"`) becomes null (`none`), never an exception. -/
def toNumericCell : Cell → Option ℚ
  | .null => none
  | .num q => some q
  | .str s =>
    match s.data with
    | '-' :: rest => (parseUnsigned rest).map (fun q => -q)
    | '+' :: rest => parseUnsigned rest
    | cs => parseUnsigned cs

/-! ### Country-name canonicalization (`data_cleaning.py` lines 85-105) -/

/-- The static `country_mapping` table of `clean_data`, verbatim. -/
def countryMapping : List (String × String) := [
  ("United States", "United States of America"),
  ("USA", "United States of America"),
  ("US", "United States of America"),
  ("UK", "United Kingdom"),
  ("Great Britain", "United Kingdom"),
  ("Republic of Korea", "South Korea"),
  ("Korea, Rep.", "South Korea"),
  ("Korea, Dem. Rep.", "North Korea"),
  ("Congo, Dem. Rep.", "Democratic Republic of the Congo"),
  ("Congo, Rep.", "Republic of Congo"),
  ("Viet Nam", "Vietnam"),
  ("Russian Federation", "Russia"),
  ("Iran, Islamic Rep.", "Iran"),
  ("Egypt, Arab Rep.", "Egypt"),
  ("Hong Kong SAR, China", "Hong Kong"),
  ("Macao SAR, China", "Macao")]

/-- First-match association lookup (the semantics of a Python dict whose
keys are distinct strings, as used by `Series.replace`). -/
def lookupStr : List (String × String) → String → Option String
  | [], _ => none
  | (k, v) :: rest, s => if s = k then some v else lookupStr rest s

/-- `Series.replace(country_mapping)` on one cell: a string equal to a
key of the mapping is replaced by the mapped value, everything else is
unchanged. -/
def canonCell (c : Cell) : Cell :=
  match c with
  | .str s =>
    match lookupStr countryMapping s with
    | some v => .str v
    | none => .str s
  | c => c

/-! ### The cleaner's row pipeline (`clean_data`) -/

/-- One row of the raw table loaded by the cleaner (the schema produced
by the fetcher's `save_raw_data`, minus the fetcher's `processed_at`
which the cleaner overwrites anyway). -/
structure RawRow where
  Country : Cell
  Country_Code : Cell
  Year : Cell
  Value : Cell
  UNIT_MEASURE : Cell
  OBS_STATUS : Cell
  Indicator : Cell
  Indicator_Code : Cell
deriving DecidableEq, Repr

/-- Step 1 (line 73): `cleaned_df["Country"].fillna("Unknown")`. -/
def fillCountry (r : RawRow) : RawRow :=
  { r with Country := if r.Country = .null then .str "Unknown" else r.Country }

/-- Step 2 (line 105): `cleaned_df["Country"].replace(country_mapping)`. -/
def canonCountry (r : RawRow) : RawRow :=
  { r with Country := canonCell r.Country }

/-- A row after numeric coercion and the `processed_at` stamp
(steps 3-5, lines 109-116). -/
structure CoerRow where
  Country : Cell
  Country_Code : Cell
  Year : Option ℤ
  Value : Option ℚ
  UNIT_MEASURE : Cell
  OBS_STATUS : Cell
  Indicator : Cell
  Indicator_Code : Cell
  processed_at : String
deriving DecidableEq, Repr

/-- `.astype("Int64")` on one already-coerced Year entry: missing stays
missing, an integral value becomes that integer, and a non-integral
value raises `TypeError` (pandas refuses a non-equivalent float-to-Int64
cast). -/
def astypeInt64 : Option ℚ → Except PyErr (Option ℤ)
  | none => .ok none
  | some q => if q.den = 1 then .ok (some q.num) else .error .typeError

/-- Steps 3-5 on one row: coerce `Value` (total, null-producing), coerce
`Year` through `to_numeric` then `astype("Int64")` (may raise), stamp
`processed_at`. -/
def coerceRow (now : String) (r : RawRow) : Except PyErr CoerRow := do
  let y ← astypeInt64 (toNumericCell r.Year)
  pure { Country := r.Country, Country_Code := r.Country_Code, Year := y,
         Value := toNumericCell r.Value, UNIT_MEASURE := r.UNIT_MEASURE,
         OBS_STATUS := r.OBS_STATUS, Indicator := r.Indicator,
         Indicator_Code := r.Indicator_Code, processed_at := now }

/-- Steps 3-5 on the table (column-wise in pandas; an `astype` failure
anywhere in the Year column raises before the next step runs). -/
def coerceTable (now : String) (t : List RawRow) : Except PyErr (List CoerRow) :=
  t.mapM (coerceRow now)

/-- One step of first-occurrence deduplication. -/
def dedupStep {α : Type} [DecidableEq α] (acc : List α) (x : α) : List α :=
  if x ∈ acc then acc else acc ++ [x]

/-- `drop_duplicates()` / `Series.unique()`: keep the first occurrence of
every value, preserving first-occurrence order. -/
def pdUnique {α : Type} [DecidableEq α] (xs : List α) : List α :=
  List.foldl dedupStep [] xs

/-- ASCII lowercasing of one character. -/
def lowerChar (c : Char) : Char :=
  if 'A' ≤ c && c ≤ 'Z' then Char.ofNat (c.toNat + 32) else c

/-- `str.lower()` (the pipeline's strings are ASCII). -/
def lowerStr (s : String) : String := ⟨s.data.map lowerChar⟩

/-- Whether `pat` occurs at the front of the second list. -/
def frontMatch : List Char → List Char → Bool
  | [], _ => true
  | _ :: _, [] => false
  | a :: as, b :: bs => a = b && frontMatch as bs

/-- Whether `pat` occurs contiguously anywhere in the second list. -/
def containsSeg (pat : List Char) : List Char → Bool
  | [] => frontMatch pat []
  | c :: rest => frontMatch pat (c :: rest) || containsSeg pat rest

/-- Python's `pat in hay` on strings. -/
def strContains (hay pat : String) : Bool := containsSeg pat.data hay.data

/-- The `connection_type` label derived from the lowercased indicator
text (lines 132-137): `"fixed"` wins over `"mobile"`, else `"unknown"`. -/
def connLabel (nameLower : String) : String :=
  if strContains nameLower "fixed" then "fixed-line"
  else if strContains nameLower "mobile" then "mobile"
  else "unknown"

/-- `indicator_name.lower()`: only a string has `.lower`; on `NaN` or a
number this raises `AttributeError`. -/
def lowerCell : Cell → Except PyErr String
  | .str s => .ok (lowerStr s)
  | _ => .error .attributeError

/-- A fully cleaned row: the coerced row plus the two derived columns of
step 7 (lines 126-137). -/
structure FinalRow where
  base : CoerRow
  indicator_clean : Cell
  connection_type : String
deriving DecidableEq, Repr

/-- `cleaned_df["Indicator"].iloc[0] if not cleaned_df.empty else "Unknown"`
(line 128). -/
def headIndicator : List CoerRow → Cell
  | [] => .str "Unknown"
  | r :: _ => r.Indicator

/-- Step 7 (lines 126-137): take the first row's `Indicator` cell (the
table always has an `Indicator` column in this schema), store it as
`indicator_clean` on every row, and derive `connection_type` from its
lowercased text. -/
def indicatorStep (t : List CoerRow) : Except PyErr (List FinalRow) := do
  let low ← lowerCell (headIndicator t)
  pure (t.map fun r =>
    { base := r, indicator_clean := headIndicator t,
      connection_type := connLabel low })

/-- `clean_data` (lines 49-143).  `.ok none` models the early
`return None` on an empty input; `.error e` models an uncaught Python
exception; `now` is the `datetime.now()` stamp of this run. -/
def cleanData (now : String) (df : List RawRow) :
    Except PyErr (Option (List FinalRow)) :=
  if df.isEmpty then .ok none
  else do
    let filled := df.map fillCountry
    let canoned := filled.map canonCountry
    let coerced ← coerceTable now canoned
    let deduped := pdUnique coerced
    let final ← indicatorStep deduped
    pure (some final)

/-! ### C5: the canonicalization map is idempotent -/

/-- A successful lookup returns a value from the mapping's range. -/
theorem lookupStr_mem_range {m : List (String × String)} {s v : String}
    (h : lookupStr m s = some v) : v ∈ m.map Prod.snd := by
  induction m with
  | nil => simp [lookupStr] at h
  | cons p rest ih =>
    obtain ⟨k, w⟩ := p
    by_cases hk : s = k
    · simp [lookupStr, hk] at h
      simp [h]
    · simp [lookupStr, hk] at h
      simpa using Or.inr (ih h)

/-- No value in the range of `country_mapping` is itself a key. -/
theorem countryMapping_range_not_keys :
    ∀ v ∈ countryMapping.map Prod.snd,
      lookupStr countryMapping v = none := by decide

/-- Replacing one cell is idempotent. -/
theorem canonCell_idem (c : Cell) : canonCell (canonCell c) = canonCell c := by
  cases c with
  | null => rfl
  | num q => rfl
  | str s =>
    cases h : lookupStr countryMapping s with
    | none => simp [canonCell, h]
    | some v =>
      have hv : lookupStr countryMapping v = none :=
        countryMapping_range_not_keys v (lookupStr_mem_range h)
      simp [canonCell, h, hv]

/-- C5: the country-name canonicalization map is idempotent: applying the
replacement to the Country column twice yields the same result as
applying it once, and no value in the map's range is itself a key of the
map. -/
theorem clean_data_canonicalization_idempotent :
    (∀ t : List RawRow, (t.map canonCountry).map canonCountry = t.map canonCountry)
    ∧ ((countryMapping.map Prod.snd).all
        (fun v => (lookupStr countryMapping v).isNone) = true) := by
  constructor
  · intro t
    rw [List.map_map]
    apply List.map_congr_left
    intro r _
    simp [canonCountry, Function.comp, canonCell_idem]
  · decide

/-! ### Generic inversion and deduplication lemmas -/

/-- Inversion for a monadic bind on `Except`. -/
theorem exceptBindOk {ε α β : Type} (x : Except ε α) (f : α → Except ε β) (b : β) :
    (x >>= f = Except.ok b) ↔ ∃ a, x = Except.ok a ∧ f a = Except.ok b := by
  cases x with
  | error e => simp [Bind.bind, Except.bind]
  | ok a => simp [Bind.bind, Except.bind]

/-- The deduplication fold preserves `Nodup` of the accumulator. -/
theorem dedupLoop_nodup {α : Type} [DecidableEq α] (xs : List α) :
    ∀ acc : List α, acc.Nodup → (List.foldl dedupStep acc xs).Nodup := by
  induction xs with
  | nil => intro acc h; simpa using h
  | cons x xs ih =>
    intro acc h
    simp only [List.foldl_cons]
    by_cases hx : x ∈ acc
    · rw [dedupStep, if_pos hx]; exact ih acc h
    · rw [dedupStep, if_neg hx]
      exact ih _ (by simp [List.nodup_append, h, hx])

/-- `pdUnique` output has no duplicate entries. -/
theorem pdUnique_nodup {α : Type} [DecidableEq α] (xs : List α) :
    (pdUnique xs).Nodup :=
  dedupLoop_nodup xs [] List.nodup_nil

/-- Membership through the deduplication fold. -/
theorem dedupLoop_mem {α : Type} [DecidableEq α] (xs : List α) (y : α) :
    ∀ acc : List α, (y ∈ List.foldl dedupStep acc xs ↔ y ∈ acc ∨ y ∈ xs) := by
  induction xs with
  | nil => intro acc; simp
  | cons x xs ih =>
    intro acc
    simp only [List.foldl_cons]
    by_cases hx : x ∈ acc
    · rw [dedupStep, if_pos hx, ih]
      constructor
      · rintro (h | h)
        · exact Or.inl h
        · exact Or.inr (List.mem_cons_of_mem x h)
      · rintro (h | h)
        · exact Or.inl h
        · rcases List.mem_cons.mp h with rfl | h
          · exact Or.inl hx
          · exact Or.inr h
    · rw [dedupStep, if_neg hx, ih]
      simp [or_assoc, List.mem_cons]

/-- `pdUnique` keeps exactly the members of its input. -/
theorem pdUnique_mem {α : Type} [DecidableEq α] (xs : List α) (y : α) :
    y ∈ pdUnique xs ↔ y ∈ xs := by
  rw [pdUnique, dedupLoop_mem]; simp

/-- The deduplication fold keeps a non-empty accumulator's head. -/
theorem dedupLoop_head {α : Type} [DecidableEq α] (xs : List α) :
    ∀ acc : List α, acc ≠ [] →
      (List.foldl dedupStep acc xs).head? = acc.head?
        ∧ List.foldl dedupStep acc xs ≠ [] := by
  induction xs with
  | nil => intro acc h; simp [h]
  | cons x xs ih =>
    intro acc h
    simp only [List.foldl_cons]
    by_cases hx : x ∈ acc
    · rw [dedupStep, if_pos hx]; exact ih acc h
    · rw [dedupStep, if_neg hx]
      obtain ⟨h1, h2⟩ := ih (acc ++ [x]) (by simp)
      refine ⟨h1.trans ?_, h2⟩
      cases acc with
      | nil => exact absurd rfl h
      | cons a t => simp

/-- `pdUnique` keeps the first element first, and keeps the list
non-empty. -/
theorem pdUnique_head {α : Type} [DecidableEq α] (x : α) (xs : List α) :
    (pdUnique (x :: xs)).head? = some x ∧ pdUnique (x :: xs) ≠ [] := by
  have := dedupLoop_head xs [x] (by simp)
  rw [pdUnique, List.foldl_cons, dedupStep] at *
  simpa using this

/-! ### Inversion for `cleanData` -/

/-- Anatomy of a successful `clean_data` run: the output is the coerced,
deduplicated table extended with the two derived columns of step 7. -/
theorem cleanData_ok_some {now : String} {df : List RawRow} {out : List FinalRow}
    (h : cleanData now df = Except.ok (some out)) :
    ∃ ct low,
      coerceTable now ((df.map fillCountry).map canonCountry) = Except.ok ct
      ∧ lowerCell (headIndicator (pdUnique ct)) = Except.ok low
      ∧ out = (pdUnique ct).map (fun r =>
          { base := r, indicator_clean := headIndicator (pdUnique ct),
            connection_type := connLabel low }) := by
  unfold cleanData at h
  by_cases hdf : df.isEmpty
  · simp [hdf] at h
  · rw [if_neg hdf] at h
    obtain ⟨ct, hct, h2⟩ := (exceptBindOk _ _ _).mp h
    obtain ⟨fin, hfin, h3⟩ := (exceptBindOk _ _ _).mp h2
    obtain ⟨low, hlow, h4⟩ := (exceptBindOk _ _ _).mp hfin
    refine ⟨ct, low, hct, hlow, ?_⟩
    simp only [pure, Except.pure, Except.ok.injEq, Option.some.injEq] at h3 h4
    rw [← h3, ← h4]

/-! ### C1: deduplication -/

/-- A raw row used in the C1 example run. -/
def c1rowA : RawRow :=
  ⟨.str "A", .str "AAA", .str "2000", .str "1", .str "P", .str "R",
   .str "Ind", .str "IC"⟩

/-- As `c1rowA` but with a different `Value`: same Country, same Year. -/
def c1rowB : RawRow :=
  ⟨.str "A", .str "AAA", .str "2000", .str "2", .str "P", .str "R",
   .str "Ind", .str "IC"⟩

/-- The cleaned image of `c1rowA` at timestamp `"t"`. -/
def c1outA : FinalRow :=
  ⟨⟨.str "A", .str "AAA", some 2000, some 1, .str "P", .str "R",
    .str "Ind", .str "IC", "t"⟩, .str "Ind", "unknown"⟩

/-- The cleaned image of `c1rowB` at timestamp `"t"`. -/
def c1outB : FinalRow :=
  ⟨⟨.str "A", .str "AAA", some 2000, some 2, .str "P", .str "R",
    .str "Ind", .str "IC", "t"⟩, .str "Ind", "unknown"⟩

/-- C1 counterexample: `drop_duplicates()` only removes rows that agree
on every column, so cleaning a table with two rows that share Country
`"A"` and Year `2000` but differ in `Value` keeps both rows: the cleaned
table has two distinct rows with the same (Country, Year) pair. -/
theorem clean_data_c1_counterexample :
    cleanData "t" [c1rowA, c1rowB] = Except.ok (some [c1outA, c1outB])
    ∧ c1outA ≠ c1outB
    ∧ c1outA.base.Country = c1outB.base.Country
    ∧ c1outA.base.Year = c1outB.base.Year := by
  refine ⟨by rfl, by decide, rfl, rfl⟩

/-- C1 amended: after the cleaner's deduplication, the cleaned table
contains at most one copy of every full row: no two rows of a successful
`clean_data` output are identical on all columns (but rows sharing only
(Country, Year) can both survive). -/
theorem clean_data_dedup_no_identical_rows (now : String) (df : List RawRow)
    (out : List FinalRow) (h : cleanData now df = Except.ok (some out)) :
    out.Nodup := by
  obtain ⟨ct, low, hct, hlow, rfl⟩ := cleanData_ok_some h
  refine List.Nodup.map ?_ (pdUnique_nodup ct)
  intro a b hab
  simpa using congrArg FinalRow.base hab

/-- Concrete instance of the amended C1 theorem: a one-row table cleans
to a duplicate-free output. -/
theorem clean_data_dedup_no_identical_rows_witness :
    ([c1outA] : List FinalRow).Nodup :=
  clean_data_dedup_no_identical_rows "t" [c1rowA] [c1outA] (by rfl)

/-! ### The pure image of a successfully coerced row -/

/-- The value a row takes after steps 3-5 when the Year cast succeeds. -/
def coerImage (now : String) (r : RawRow) : CoerRow :=
  { Country := r.Country, Country_Code := r.Country_Code,
    Year := (toNumericCell r.Year).map Rat.num,
    Value := toNumericCell r.Value, UNIT_MEASURE := r.UNIT_MEASURE,
    OBS_STATUS := r.OBS_STATUS, Indicator := r.Indicator,
    Indicator_Code := r.Indicator_Code, processed_at := now }

/-- A successful `coerceRow` produces exactly `coerImage`. -/
theorem coerceRow_ok {now : String} {r : RawRow} {c : CoerRow}
    (h : coerceRow now r = Except.ok c) : c = coerImage now r := by
  unfold coerceRow at h
  cases hy : toNumericCell r.Year with
  | none =>
    simp only [hy, astypeInt64, Bind.bind, Except.bind, pure, Except.pure,
      Except.ok.injEq] at h
    rw [← h]; simp [coerImage, hy]
  | some q =>
    by_cases hden : q.den = 1
    · simp only [hy, astypeInt64, if_pos hden, Bind.bind, Except.bind, pure,
        Except.pure, Except.ok.injEq] at h
      rw [← h]; simp [coerImage, hy]
    · simp [hy, astypeInt64, if_neg hden, Bind.bind, Except.bind] at h

/-- A successful `coerceTable` is the row-wise `coerImage` map. -/
theorem coerceTable_ok {now : String} {t : List RawRow} {ct : List CoerRow}
    (h : coerceTable now t = Except.ok ct) : ct = t.map (coerImage now) := by
  induction t generalizing ct with
  | nil =>
    simp only [coerceTable, List.mapM_nil, pure, Except.pure, Except.ok.injEq] at h
    simp [← h]
  | cons r rest ih =>
    simp only [coerceTable, List.mapM_cons] at h
    obtain ⟨c, hc, h2⟩ := (exceptBindOk _ _ _).mp h
    obtain ⟨cs, hcs, h3⟩ := (exceptBindOk _ _ _).mp h2
    simp only [pure, Except.pure, Except.ok.injEq] at h3
    rw [← h3, coerceRow_ok hc, ih hcs, List.map_cons]

/-- When every Year entry of a table is missing or integral, the Year
cast cannot fail and the whole coercion step succeeds. -/
theorem coerceTable_total (now : String) (t : List RawRow)
    (hint : ∀ r ∈ t, ∀ q, toNumericCell r.Year = some q → q.den = 1) :
    coerceTable now t = Except.ok (t.map (coerImage now)) := by
  induction t with
  | nil => rfl
  | cons r rest ih =>
    have hr : coerceRow now r = Except.ok (coerImage now r) := by
      unfold coerceRow
      cases hy : toNumericCell r.Year with
      | none =>
        simp [hy, astypeInt64, Bind.bind, Except.bind, pure, Except.pure,
          coerImage]
      | some q =>
        have hden : q.den = 1 := hint r (List.mem_cons_self r rest) q hy
        simp [hy, astypeInt64, if_pos hden, Bind.bind, Except.bind, pure,
          Except.pure, coerImage]
    have hrest := ih (fun r hr => hint r (List.mem_cons_of_mem _ hr))
    simp only [coerceTable, List.mapM_cons] at *
    rw [hr, hrest]
    simp [Bind.bind, Except.bind, pure, Except.pure]

/-- `headIndicator` through `head?`. -/
theorem headIndicator_eq {t : List CoerRow} {r : CoerRow}
    (h : t.head? = some r) : headIndicator t = r.Indicator := by
  cases t with
  | nil => simp at h
  | cons a rest =>
    simp only [List.head?_cons, Option.some.injEq] at h
    rw [← h]; rfl

/-- Every row of a successful `clean_data` output carries the label
derived from the first input row's `Indicator` text. -/
theorem cleanData_label {now : String} {df : List RawRow} {out : List FinalRow}
    {s : String} (h : cleanData now df = Except.ok (some out))
    (hs : df.head?.map RawRow.Indicator = some (Cell.str s)) :
    ∀ r ∈ out, r.connection_type = connLabel (lowerStr s) := by
  obtain ⟨ct, low, hct, hlow, hout⟩ := cleanData_ok_some h
  cases df with
  | nil => simp [cleanData] at h
  | cons r0 rest =>
    simp only [List.head?_cons, Option.map_some', Option.some.injEq] at hs
    have hctm := coerceTable_ok hct
    have hcons : ct = coerImage now (canonCountry (fillCountry r0)) ::
        ((rest.map fillCountry).map canonCountry).map (coerImage now) := by
      rw [hctm]; rfl
    have hhead : (pdUnique ct).head? = some (coerImage now (canonCountry (fillCountry r0))) := by
      rw [hcons]; exact (pdUnique_head _ _).1
    have hind : headIndicator (pdUnique ct) = Cell.str s := by
      rw [headIndicator_eq hhead]
      show (canonCountry (fillCountry r0)).Indicator = Cell.str s
      simp [canonCountry, fillCountry, hs]
    rw [hind] at hlow
    simp only [lowerCell, Except.ok.injEq] at hlow
    subst hout
    intro r hr
    obtain ⟨c, _, rfl⟩ := List.mem_map.mp hr
    simp [hlow]

/-- `connLabel` always lands in the three spec labels. -/
theorem connLabel_cases (s : String) :
    connLabel s = "fixed-line" ∨ connLabel s = "mobile" ∨ connLabel s = "unknown" := by
  unfold connLabel
  split_ifs <;> simp

/-! ### C2: connection_type derivation is deterministic and total -/

/-- C2: on every successful `clean_data` run whose first row's
`Indicator` holds the text `s`, every output row's `connection_type`
equals `connLabel (lowerStr s)` — a function of the indicator text
alone, so the same text always yields the same label — and that label is
exactly one of `"fixed-line"`, `"mobile"`, `"unknown"`. -/
theorem clean_data_connection_type_total (now : String) (df : List RawRow)
    (out : List FinalRow) (s : String)
    (h : cleanData now df = Except.ok (some out))
    (hs : df.head?.map RawRow.Indicator = some (Cell.str s)) :
    (∀ r ∈ out, r.connection_type = connLabel (lowerStr s))
    ∧ (connLabel (lowerStr s) = "fixed-line" ∨ connLabel (lowerStr s) = "mobile"
        ∨ connLabel (lowerStr s) = "unknown") :=
  ⟨cleanData_label h hs, connLabel_cases _⟩

/-- A raw row whose indicator names a mobile series. -/
def c2rowM : RawRow :=
  ⟨.str "A", .str "AAA", .str "2000", .str "1", .str "P", .str "R",
   .str "Mobile cellular subscriptions", .str "IC"⟩

/-- The cleaned image of `c2rowM` at timestamp `"t"`. -/
def c2outM : FinalRow :=
  ⟨⟨.str "A", .str "AAA", some 2000, some 1, .str "P", .str "R",
    .str "Mobile cellular subscriptions", .str "IC", "t"⟩,
   .str "Mobile cellular subscriptions", "mobile"⟩

/-- Concrete instance of C2: the mobile indicator text labels the row
`"mobile"`. -/
theorem clean_data_connection_type_total_witness :
    c2outM.connection_type = connLabel (lowerStr "Mobile cellular subscriptions") :=
  (clean_data_connection_type_total "t" [c2rowM] [c2outM]
    "Mobile cellular subscriptions" (by rfl) (by rfl)).1 c2outM (by simp)

/-! ### C9: "fixed" takes precedence over "mobile" -/

/-- C9: when the first row's `Indicator` text contains both `"fixed"`
and `"mobile"` (case-insensitively), every row of a successful
`clean_data` output is labelled `"fixed-line"`. -/
theorem clean_data_fixed_beats_mobile (now : String) (df : List RawRow)
    (out : List FinalRow) (s : String)
    (h : cleanData now df = Except.ok (some out))
    (hs : df.head?.map RawRow.Indicator = some (Cell.str s))
    (hf : strContains (lowerStr s) "fixed" = true)
    (_hm : strContains (lowerStr s) "mobile" = true) :
    ∀ r ∈ out, r.connection_type = "fixed-line" := by
  intro r hr
  rw [cleanData_label h hs r hr, connLabel, if_pos hf]

/-- A raw row whose indicator mentions both fixed and mobile. -/
def c9row : RawRow :=
  ⟨.str "A", .str "AAA", .str "2000", .str "1", .str "P", .str "R",
   .str "Households with Fixed or Mobile access", .str "IC"⟩

/-- The cleaned image of `c9row` at timestamp `"t"`. -/
def c9out : FinalRow :=
  ⟨⟨.str "A", .str "AAA", some 2000, some 1, .str "P", .str "R",
    .str "Households with Fixed or Mobile access", .str "IC", "t"⟩,
   .str "Households with Fixed or Mobile access", "fixed-line"⟩

/-- Concrete instance of C9: an indicator containing both words is
labelled `"fixed-line"`. -/
theorem clean_data_fixed_beats_mobile_witness :
    c9out.connection_type = "fixed-line" :=
  clean_data_fixed_beats_mobile "t" [c9row] [c9out]
    "Households with Fixed or Mobile access" (by rfl) (by rfl) (by rfl) (by rfl)
    c9out (by simp)

/-! ### C3: Year/Value coercion -/

/-- A raw row whose Year text is numeric but not integral. -/
def c3badRow : RawRow :=
  ⟨.str "A", .str "AAA", .str "2000.5", .str "1", .str "P", .str "R",
   .str "Ind", .str "IC"⟩

/-- C3 counterexample: coercion is not exception-free.  `"2000.5"` is a
numeric Year entry (so `to_numeric` does not coerce it to null), and the
subsequent `astype("Int64")` raises `TypeError`, which `clean_data` does
not catch. -/
theorem clean_data_c3_counterexample :
    (toNumericCell c3badRow.Year).isSome = true
    ∧ cleanData "t" [c3badRow] = Except.error PyErr.typeError :=
  ⟨by rfl, by rfl⟩

/-- C3 amended: `Value` coercion never raises — every non-numeric entry
(e.g. `"n/a"`) becomes null — and `Year` coercion never raises provided
every numeric Year entry is integral (a numeric non-integral Year such
as `"2000.5"` raises `TypeError`); a row whose `Value` coerces to null
is retained in the output, not dropped. -/
theorem clean_data_coercion_total (now : String) (df : List RawRow) :
    ((∀ r ∈ df, ∀ q, toNumericCell r.Year = some q → q.den = 1) →
      coerceTable now ((df.map fillCountry).map canonCountry)
        = Except.ok (((df.map fillCountry).map canonCountry).map (coerImage now)))
    ∧ (∀ out, cleanData now df = Except.ok (some out) →
        ∀ r ∈ df, ∃ fr ∈ out, fr.base = coerImage now (canonCountry (fillCountry r))) := by
  constructor
  · intro hint
    apply coerceTable_total
    intro r hr q hq
    simp only [List.mem_map] at hr
    obtain ⟨r0, hr0, rfl⟩ := hr
    obtain ⟨r1, hr1, rfl⟩ := hr0
    exact hint r1 hr1 q hq
  · intro out h r hr
    obtain ⟨ct, low, hct, hlow, hout⟩ := cleanData_ok_some h
    have hctm := coerceTable_ok hct
    have hmem : coerImage now (canonCountry (fillCountry r)) ∈ pdUnique ct := by
      rw [pdUnique_mem, hctm]
      exact List.mem_map_of_mem _ (List.mem_map_of_mem _ (List.mem_map_of_mem _ hr))
    subst hout
    exact ⟨_, List.mem_map_of_mem _ hmem, rfl⟩

/-- A raw row with the spec scenario's `Value="n/a"`. -/
def c3row : RawRow :=
  ⟨.str "USA", .str "USA", .str "2020", .str "n/a", .str "P", .str "R",
   .str "Ind", .str "IC"⟩

/-- The cleaned image of `c3row` at timestamp `"t"`. -/
def c3fin : FinalRow :=
  ⟨⟨.str "United States of America", .str "USA", some 2020, none, .str "P",
    .str "R", .str "Ind", .str "IC", "t"⟩, .str "Ind", "unknown"⟩

/-- Concrete instance of the amended C3: `Value="n/a"` coerces to null
without an exception and the row is retained. -/
theorem clean_data_coercion_total_witness :
    coerceTable "t" (([c3row].map fillCountry).map canonCountry)
      = Except.ok ((([c3row].map fillCountry).map canonCountry).map (coerImage "t"))
    ∧ c3fin.base = coerImage "t" (canonCountry (fillCountry c3row))
    ∧ c3fin.base.Value = none := by
  have h1 := (clean_data_coercion_total "t" [c3row]).1 (by
    intro r hr q hq
    simp only [List.mem_singleton] at hr
    subst hr
    have : toNumericCell c3row.Year = some (mkRat 2020 1) := rfl
    rw [this] at hq
    cases hq
    rfl)
  obtain ⟨fr, hmem, hbase⟩ := (clean_data_coercion_total "t" [c3row]).2
    [c3fin] (by rfl) c3row (by simp)
  simp only [List.mem_singleton] at hmem
  subst hmem
  exact ⟨h1, hbase, by rfl⟩

/-! ## Fetcher (`src/fetch_worldbank_data.py`) -/

/-- The outcome of one HTTP GET + `raise_for_status()` + `.json()`
against the World Bank API, whose JSON body is a two-element array
`[metadata, records]`: `fail` is a `requests.exceptions.RequestException`
raised by the request; `payload elems` is the parsed JSON array.  Only
index 1 of the array is ever read, so the never-inspected metadata
element is modelled with the same list type as the records element. -/
inductive WBResp (α : Type) where
  | fail
  | payload (elems : List (List α))
deriving DecidableEq, Repr

/-- The `while True` pagination loop of `fetch_data` (lines 103-137),
with the environment abstracted as the per-page response `api` and the
unbounded loop given as much `fuel` as needed.  A request failure is
caught (`break`), so the loop always returns the accumulated records and
never raises. -/
def fetchLoop {α : Type} (api : Nat → WBResp α) :
    Nat → Nat → List α → List α
  | 0, _, acc => acc
  | fuel + 1, page, acc =>
    match api page with
    | .fail => acc
    | .payload elems =>
      match elems[1]? with
      | none => acc
      | some batch =>
        if batch.isEmpty then acc
        else if batch.length < 1000 then acc ++ batch
        else fetchLoop api fuel (page + 1) (acc ++ batch)

/-- `fetch_data` (lines 83-139): paginate from page 1 with an empty
accumulator. -/
def fetch_data {α : Type} (api : Nat → WBResp α) (fuel : Nat) : List α :=
  fetchLoop api fuel 1 []

/-- Accumulated records are a prefix of the final result: the loop
output is the accumulator followed by whatever later pages contribute. -/
theorem fetchLoop_acc {α : Type} (api : Nat → WBResp α) (fuel : Nat) :
    ∀ page acc, fetchLoop api fuel page acc = acc ++ fetchLoop api fuel page [] := by
  induction fuel with
  | zero => intro page acc; simp [fetchLoop]
  | succ fuel ih =>
    intro page acc
    cases hr : api page with
    | fail => simp [fetchLoop, hr]
    | payload elems =>
      cases hg : elems[1]? with
      | none => simp [fetchLoop, hr, hg]
      | some batch =>
        by_cases hb : batch.isEmpty
        · simp [fetchLoop, hr, hg, hb]
        · by_cases hlen : batch.length < 1000
          · simp [fetchLoop, hr, hg, hb, hlen]
          · simp only [fetchLoop, hr, hg, hb, if_false, hlen,
              Bool.false_eq_true]
            rw [ih (page + 1) (acc ++ batch), ih (page + 1) ([] ++ batch)]
            simp

/-- C4: one step of the pagination loop, covering every case: a failed
request stops with the records accumulated so far (no retry, no
exception); a payload with fewer than two elements or an empty records
list stops; a short page (fewer than the page size 1000) is appended and
the loop stops; a full page is appended and the loop continues with the
next page number; and the accumulator is always a prefix of the final
result, so pages are accumulated in order. -/
theorem fetch_data_pagination {α : Type} (api : Nat → WBResp α)
    (fuel page : Nat) (acc : List α) :
    (api page = .fail → fetchLoop api (fuel + 1) page acc = acc)
    ∧ (∀ elems, api page = .payload elems →
        (elems[1]? = none ∨ elems[1]? = some []) →
        fetchLoop api (fuel + 1) page acc = acc)
    ∧ (∀ elems batch, api page = .payload elems → elems[1]? = some batch →
        batch ≠ [] → batch.length < 1000 →
        fetchLoop api (fuel + 1) page acc = acc ++ batch)
    ∧ (∀ elems batch, api page = .payload elems → elems[1]? = some batch →
        1000 ≤ batch.length →
        fetchLoop api (fuel + 1) page acc
          = fetchLoop api fuel (page + 1) (acc ++ batch))
    ∧ (fetchLoop api fuel page acc = acc ++ fetchLoop api fuel page [])
    ∧ fetch_data api fuel = fetchLoop api fuel 1 [] := by
  refine ⟨?_, ?_, ?_, ?_, fetchLoop_acc api fuel page acc, rfl⟩
  · intro hr; simp [fetchLoop, hr]
  · rintro elems hr (hg | hg) <;> simp [fetchLoop, hr, hg]
  · intro elems batch hr hg hb hlen
    simp [fetchLoop, hr, hg, List.isEmpty_iff, hb, hlen]
  · intro elems batch hr hg hlen
    have hb : batch.isEmpty = false := by
      cases batch with
      | nil => simp at hlen
      | cons a l => rfl
    simp [fetchLoop, hr, hg, hb, Nat.not_lt.mpr hlen]

/-- An API that always fails. -/
def c4apiFail : Nat → WBResp Nat := fun _ => .fail

/-- An API whose page 1 is a short (2-record) page. -/
def c4apiShort : Nat → WBResp Nat := fun _ => .payload [[], [5, 6]]

/-- An API whose page 1 is a full (1000-record) page. -/
def c4apiFull : Nat → WBResp Nat :=
  fun p => if p = 1 then .payload [[], List.replicate 1000 7] else .fail

/-- Concrete instances of C4: a failed request returns the accumulator,
a short page is appended and stops, a full page continues to page 2. -/
theorem fetch_data_pagination_witness :
    fetchLoop c4apiFail 1 1 ([] : List Nat) = []
    ∧ fetchLoop c4apiShort 1 1 ([] : List Nat) = [] ++ [5, 6]
    ∧ fetchLoop c4apiFull 2 1 ([] : List Nat)
        = fetchLoop c4apiFull 1 2 ([] ++ List.replicate 1000 7) := by
  refine ⟨(fetch_data_pagination c4apiFail 0 1 []).1 rfl, ?_, ?_⟩
  · exact (fetch_data_pagination c4apiShort 0 1 []).2.2.1 [[], [5, 6]] [5, 6]
      rfl rfl (by decide) (by decide)
  · exact (fetch_data_pagination c4apiFull 1 1 []).2.2.2.1
      [[], List.replicate 1000 7] (List.replicate 1000 7) rfl rfl
      (le_of_eq (List.length_replicate 1000 7).symm)

/-! ### C7: indicator discovery (`discover_indicator_id`, lines 37-81) -/

/-- One entry of the indicator catalog; `none` models an absent key. -/
structure CatalogEntry where
  id : Option String
  name : Option String
deriving DecidableEq, Repr

/-- The filter at line 61: the entry's name (absent defaults to `""`)
contains `"household"` and (`"fixed"` or `"mobile"`), case-insensitively. -/
def relevantEntry (e : CatalogEntry) : Bool :=
  strContains (lowerStr (e.name.getD "")) "household"
    && (strContains (lowerStr (e.name.getD "")) "fixed"
        || strContains (lowerStr (e.name.getD "")) "mobile")

/-- `discover_indicator_id`: a `RequestException` is caught and yields
the hardcoded fallback `"IT.NET.USER.ZS"`; on a payload, index 1 is read
(`IndexError` if the JSON array is shorter — not a network error, and
not caught), entries are filtered, and the first match's `"id"` is
returned (`KeyError` if that key is absent), or the fallback when
nothing matches. -/
def discover_indicator_id (resp : WBResp CatalogEntry) : Except PyErr String :=
  match resp with
  | .fail => .ok "IT.NET.USER.ZS"
  | .payload elems =>
    match elems[1]? with
    | none => .error .indexError
    | some entries =>
      match entries.filter relevantEntry with
      | [] => .ok "IT.NET.USER.ZS"
      | e :: _ =>
        match e.id with
        | none => .error .keyError
        | some i => .ok i

/-- C7: the catalog filter keeps exactly the entries whose name contains
`"household"` and `"fixed"` or `"mobile"`; the first match's identifier
is returned; and if no entry matches or the catalog request fails the
hardcoded fallback `"IT.NET.USER.ZS"` is returned — in particular a
network error is caught and never propagates. -/
theorem discover_indicator_fallback (resp : WBResp CatalogEntry) :
    (resp = .fail → discover_indicator_id resp = .ok "IT.NET.USER.ZS")
    ∧ (∀ e : CatalogEntry, relevantEntry e = true ↔
        (strContains (lowerStr (e.name.getD "")) "household" = true
          ∧ (strContains (lowerStr (e.name.getD "")) "fixed" = true
              ∨ strContains (lowerStr (e.name.getD "")) "mobile" = true)))
    ∧ (∀ elems entries, resp = .payload elems → elems[1]? = some entries →
        entries.filter relevantEntry = [] →
        discover_indicator_id resp = .ok "IT.NET.USER.ZS")
    ∧ (∀ elems entries e rest i, resp = .payload elems →
        elems[1]? = some entries →
        entries.filter relevantEntry = e :: rest → e.id = some i →
        discover_indicator_id resp = .ok i) := by
  refine ⟨?_, ?_, ?_, ?_⟩
  · intro h; rw [h]; rfl
  · intro e; simp [relevantEntry, Bool.and_eq_true, Bool.or_eq_true]
  · intro elems entries h hg hf
    rw [h]; simp only [discover_indicator_id, hg, hf]
  · intro elems entries e rest i h hg hf hid
    rw [h]; simp only [discover_indicator_id, hg, hf, hid]

/-- A catalog entry matching the household/fixed filter. -/
def c7match : CatalogEntry :=
  ⟨some "HH.FIX", some "Households with a Fixed line"⟩

/-- A catalog entry that does not match the filter. -/
def c7nomatch : CatalogEntry := ⟨some "X", some "GDP per capita"⟩

/-- Concrete instances of C7: a failed request and a match-free catalog
both fall back, a matching catalog returns the first match's id. -/
theorem discover_indicator_fallback_witness :
    discover_indicator_id .fail = .ok "IT.NET.USER.ZS"
    ∧ discover_indicator_id (.payload [[], [c7nomatch]]) = .ok "IT.NET.USER.ZS"
    ∧ discover_indicator_id (.payload [[], [c7nomatch, c7match]]) = .ok "HH.FIX" := by
  refine ⟨(discover_indicator_fallback .fail).1 rfl, ?_, ?_⟩
  · exact (discover_indicator_fallback _).2.2.1 [[], [c7nomatch]] [c7nomatch]
      rfl rfl (by decide)
  · exact (discover_indicator_fallback _).2.2.2 [[], [c7nomatch, c7match]]
      [c7nomatch, c7match] c7match [] "HH.FIX" rfl rfl (by decide) rfl

/-! ### C10: `normalize_data` and OBS_STATUS (lines 141-172) -/

/-- A JSON field of a raw API record: the key may be absent, hold JSON
null, or hold a value. -/
inductive JField (β : Type) where
  | absent
  | null
  | val (b : β)
deriving DecidableEq, Repr

/-- The nested `country` / `indicator` objects of a record. -/
structure WBObj where
  id : JField String
  value : JField String
deriving DecidableEq, Repr

/-- One raw record returned by the series endpoint. -/
structure WBItem where
  country : JField WBObj
  countryiso3code : JField String
  date : JField String
  value : JField ℚ
  indicator : JField WBObj
deriving DecidableEq, Repr

/-- `item.get(k, {}).get("value", "Unknown")`: an absent outer key gives
the default `{}`, hence `"Unknown"`; a JSON-null outer value has no
`.get` and raises `AttributeError`; otherwise the inner lookup defaults
an absent key to `"Unknown"` and yields Python `None` for null. -/
def getNestedValue : JField WBObj → Except PyErr Cell
  | .absent => .ok (.str "Unknown")
  | .null => .error .attributeError
  | .val o => .ok (match o.value with
      | .absent => .str "Unknown"
      | .null => .null
      | .val s => .str s)

/-- `item.get("indicator", {}).get("id", "Unknown")`, same shape. -/
def getNestedId : JField WBObj → Except PyErr Cell
  | .absent => .ok (.str "Unknown")
  | .null => .error .attributeError
  | .val o => .ok (match o.id with
      | .absent => .str "Unknown"
      | .null => .null
      | .val s => .str s)

/-- `item.get(k, "Unknown")` on a flat string field. -/
def getStrDefault (f : JField String) (d : String) : Cell :=
  match f with
  | .absent => .str d
  | .null => .null
  | .val s => .str s

/-- One flattened Observation row, as built at lines 157-166. -/
structure NormRecord where
  Country : Cell
  Country_Code : Cell
  Year : Cell
  Value : Cell
  UNIT_MEASURE : String
  OBS_STATUS : String
  Indicator : Cell
  Indicator_Code : Cell
deriving DecidableEq, Repr

/-- The body of the flattening loop (lines 155-167): `none` models the
`except` branch that logs the bad record and skips it.  The only
operations that can raise here are the `.get` chains on a JSON-null
`country` or `indicator`. -/
def normalizeItem (item : WBItem) : Option NormRecord :=
  match getNestedValue item.country, getNestedValue item.indicator,
        getNestedId item.indicator with
  | .ok c, .ok iv, .ok ic =>
    some { Country := c,
           Country_Code := getStrDefault item.countryiso3code "Unknown",
           Year := getStrDefault item.date "Unknown",
           Value := (match item.value with | .val q => .num q | _ => .null),
           UNIT_MEASURE := "Percentage",
           OBS_STATUS := (match item.value with
             | .val _ => "Regular"
             | _ => "Missing"),
           Indicator := iv, Indicator_Code := ic }
  | _, _, _ => none

/-- The record-assembly loop of `normalize_data` (lines 153-172).  The
subsequent DataFrame dtype conversions (lines 174-184) run inside their
own try/except and do not touch `OBS_STATUS`; no claim depends on them
and they are not modelled here. -/
def normalizeData (items : List WBItem) : List NormRecord :=
  items.filterMap normalizeItem

/-- C10: for every record that flattens successfully, `OBS_STATUS` is
`"Regular"` exactly when the record's `value` field is present and
non-null, and `"Missing"` otherwise; the flattened record appears in
`normalize_data`'s output. -/
theorem normalize_data_obs_status (item : WBItem) (rec : NormRecord)
    (h : normalizeItem item = some rec) :
    (rec.OBS_STATUS = "Regular" ↔ ∃ q, item.value = JField.val q)
    ∧ (rec.OBS_STATUS = "Missing" ↔ ∀ q, item.value ≠ JField.val q)
    ∧ rec ∈ normalizeData [item] := by
  refine ⟨?_, ?_, ?_⟩
  · cases hc : getNestedValue item.country with
    | error e => simp [normalizeItem, hc] at h
    | ok c =>
      cases hv : getNestedValue item.indicator with
      | error e => simp [normalizeItem, hc, hv] at h
      | ok iv =>
        cases hi : getNestedId item.indicator with
        | error e => simp [normalizeItem, hc, hv, hi] at h
        | ok ic =>
          simp only [normalizeItem, hc, hv, hi, Option.some.injEq] at h
          subst h
          cases item.value <;> simp
  · cases hc : getNestedValue item.country with
    | error e => simp [normalizeItem, hc] at h
    | ok c =>
      cases hv : getNestedValue item.indicator with
      | error e => simp [normalizeItem, hc, hv] at h
      | ok iv =>
        cases hi : getNestedId item.indicator with
        | error e => simp [normalizeItem, hc, hv, hi] at h
        | ok ic =>
          simp only [normalizeItem, hc, hv, hi, Option.some.injEq] at h
          subst h
          cases item.value <;> simp
  · simp [normalizeData, List.filterMap, h]

/-- A record whose `value` is present and non-null. -/
def c10item : WBItem :=
  ⟨.val ⟨.val "ALB", .val "Albania"⟩, .val "ALB", .val "2020",
   .val (mkRat 55 1), .val ⟨.val "IT.NET.USER.ZS", .val "Internet users"⟩⟩

/-- The flattened image of `c10item`. -/
def c10rec : NormRecord :=
  ⟨.str "Albania", .str "ALB", .str "2020", .num (mkRat 55 1),
   "Percentage", "Regular", .str "Internet users", .str "IT.NET.USER.ZS"⟩

/-- Concrete instance of C10: a present non-null value flattens with
`OBS_STATUS = "Regular"`. -/
theorem normalize_data_obs_status_witness :
    c10rec.OBS_STATUS = "Regular" :=
  (normalize_data_obs_status c10item c10rec (by rfl)).1.mpr ⟨mkRat 55 1, rfl⟩

/-! ### C8: `clean_data` does not mutate its input

The cleaner's column assignments are in-place mutations of a pandas
object, so we model the two objects alive inside `clean_data` — the
caller's `df` and, after `cleaned_df = df.copy()` (line 66), the copy —
as a two-slot heap.  Every write between the copy and the return targets
the `cleaned_df` slot. -/

/-- The table bound to a pandas object, at whichever pipeline stage it
currently is. -/
inductive DfStage where
  | rawS (t : List RawRow)
  | coerS (t : List CoerRow)
  | finS (t : List FinalRow)
deriving DecidableEq, Repr

/-- The two pandas objects alive inside `clean_data`: the caller's `df`
and (once line 66 has run) the copy bound to `cleaned_df`. -/
structure PdHeap where
  dfObj : DfStage
  workObj : Option DfStage
deriving DecidableEq, Repr

/-- Steps 1 (fillna) as an in-place table transform. -/
def stageFill : DfStage → DfStage
  | .rawS t => .rawS (t.map fillCountry)
  | s => s

/-- Step 2 (replace) as an in-place table transform. -/
def stageCanon : DfStage → DfStage
  | .rawS t => .rawS (t.map canonCountry)
  | s => s

/-- Steps 3-5 (numeric coercion + timestamp), which can raise. -/
def stageCoerce (now : String) : DfStage → Except PyErr DfStage
  | .rawS t => (coerceTable now t).map .coerS
  | s => .ok s

/-- Step 6 (`drop_duplicates`; it rebinds `cleaned_df` to a fresh
object, which mutates nothing either). -/
def stageDedup : DfStage → DfStage
  | .coerS t => .coerS (pdUnique t)
  | s => s

/-- Step 7 (derived indicator columns), which can raise. -/
def stageIndicator : DfStage → Except PyErr DfStage
  | .coerS t => (indicatorStep t).map .finS
  | s => .ok s

/-- In-place update of the `cleaned_df` object only. -/
def writeWork (f : DfStage → DfStage) (h : PdHeap) : PdHeap :=
  { h with workObj := h.workObj.map f }

/-- Like `writeWork` for a step that can raise. -/
def writeWorkE (f : DfStage → Except PyErr DfStage) (h : PdHeap) :
    Except PyErr PdHeap :=
  match h.workObj with
  | none => .ok h
  | some w => (f w).map fun w2 => { h with workObj := some w2 }

/-- `clean_data` as a program over the two-object heap: returns the heap
as it stands when the function exits (normally or by exception) together
with the function result. -/
def clean_data_heap (now : String) (df : List RawRow) :
    PdHeap × Except PyErr (Option (List FinalRow)) :=
  let h0 : PdHeap := ⟨.rawS df, none⟩
  if df.isEmpty then (h0, .ok none)
  else
    let h1 : PdHeap := { h0 with workObj := some h0.dfObj }
    let h2 := writeWork stageFill h1
    let h3 := writeWork stageCanon h2
    match writeWorkE (stageCoerce now) h3 with
    | .error e => (h3, .error e)
    | .ok h4 =>
      let h5 := writeWork stageDedup h4
      match writeWorkE stageIndicator h5 with
      | .error e => (h5, .error e)
      | .ok h6 =>
        (h6, .ok (match h6.workObj with
                  | some (.finS t) => some t
                  | _ => none))

/-- C8: `clean_data` never mutates its input: on every run — including
the exception paths — the caller's object still holds exactly the input
rows when the function exits, and the function result (built in the
separate copy) is the cleaned table computed by `cleanData`. -/
theorem clean_data_no_input_mutation (now : String) (df : List RawRow) :
    (clean_data_heap now df).1.dfObj = DfStage.rawS df
    ∧ (clean_data_heap now df).2 = cleanData now df := by
  by_cases hdf : df.isEmpty
  · constructor <;> simp [clean_data_heap, cleanData, hdf]
  · cases hct : coerceTable now (df.map (canonCountry ∘ fillCountry)) with
    | error e =>
      constructor <;>
        simp [clean_data_heap, cleanData, hdf, writeWork, stageFill, stageCanon,
          writeWorkE, stageCoerce, hct, Except.map, Bind.bind, Except.bind]
    | ok ct =>
      cases hind : indicatorStep (pdUnique ct) with
      | error e =>
        constructor <;>
          simp [clean_data_heap, cleanData, hdf, writeWork, stageFill,
            stageCanon, writeWorkE, stageCoerce, hct, Except.map, stageDedup,
            stageIndicator, hind, Bind.bind, Except.bind]
      | ok fin =>
        constructor <;>
          simp [clean_data_heap, cleanData, hdf, writeWork, stageFill,
            stageCanon, writeWorkE, stageCoerce, hct, Except.map, stageDedup,
            stageIndicator, hind, Bind.bind, Except.bind, pure, Except.pure]

/-! ## Visualizer (`analysis/generate_visualizations.py`)

The cleaned CSV read back by the visualizer gives a float Year column in
which missing years are `NaN`; we model a year entry as `Option ℤ` with
`none` for `NaN`.  Python comparisons against `NaN` are all `False`,
which matters for `sorted(df['Year'].unique())` at line 83: CPython's
sort assumes a consistent comparison and silently produces an
un-sorted arrangement when `NaN` is present. -/

/-- One row of the cleaned table as the visualizer reads it (only the
columns `plot_top_countries` touches). -/
structure VizRow where
  Country : String
  Year : Option ℤ
  Value : Option ℚ
deriving DecidableEq, Repr

/-- Python `<` on a float column with `NaN` (`none`): every comparison
against `NaN` is `False`. -/
def pyLt : Option ℤ → Option ℤ → Bool
  | some a, some b => decide (a < b)
  | _, _ => false

/-- Python `==` on such a column: `NaN` equals nothing, not even
itself. -/
def pyEq : Option ℤ → Option ℤ → Bool
  | some a, some b => a == b
  | _, _ => false

/-- The comparison `sorted` uses on a `NaN`-free column. -/
def intLt (a b : ℤ) : Bool := decide (a < b)

/-- The binary search of CPython's `binarysort`: locate the insertion
point of `pivot` in the slice `[l, r)` of `a`; move left when
`pivot < a[p]`, else right.  (The `getD` default is never read: `p`
stays below `r ≤ a.length`.) -/
def binLoc {α : Type} (lt : α → α → Bool) (a : List α) (pivot : α) (l r : Nat) : Nat :=
  if h : l < r then
    if lt pivot (a.getD (l + (r - l) / 2) pivot) then
      binLoc lt a pivot l (l + (r - l) / 2)
    else binLoc lt a pivot (l + (r - l) / 2 + 1) r
  else l
termination_by r - l
decreasing_by
  · omega
  · omega

/-- Insert one element at the position `binLoc` finds. -/
def binInsert {α : Type} (lt : α → α → Bool) (acc : List α) (x : α) : List α :=
  acc.take (binLoc lt acc x 0 acc.length) ++ x :: acc.drop (binLoc lt acc x 0 acc.length)

/-- CPython `binarysort`: binary-insert each remaining element, left to
right, into the initial run. -/
def binarySortExt {α : Type} (lt : α → α → Bool) (run rest : List α) : List α :=
  List.foldl (binInsert lt) run rest

/-- Extend a weakly ascending initial run: continue while not
`y < prev`. -/
def takeRunAsc {α : Type} (lt : α → α → Bool) : α → List α → List α × List α
  | _, [] => ([], [])
  | prev, y :: ys =>
    if lt y prev then ([], y :: ys)
    else
      let (r, rest) := takeRunAsc lt y ys
      (y :: r, rest)

/-- Extend a strictly descending initial run: continue while
`y < prev`. -/
def takeRunDesc {α : Type} (lt : α → α → Bool) : α → List α → List α × List α
  | _, [] => ([], [])
  | prev, y :: ys =>
    if lt y prev then
      let (r, rest) := takeRunDesc lt y ys
      (y :: r, rest)
    else ([], y :: ys)

/-- Python `sorted` as CPython's Timsort executes it on fewer than 64
elements (one `count_run`, reversing a strictly descending initial run,
then `binarysort` for the remainder).  This is exact for the lists the
theorems below evaluate; on longer `NaN`-free lists of distinct elements
every correct sort agrees anyway, which is all the fallback proof
uses. -/
def pySorted {α : Type} (lt : α → α → Bool) : List α → List α
  | [] => []
  | [x] => [x]
  | x0 :: x1 :: rest =>
    if lt x1 x0 then
      let (r, rst) := takeRunDesc lt x1 rest
      binarySortExt lt (x0 :: x1 :: r).reverse rst
    else
      let (r, rst) := takeRunAsc lt x1 rest
      binarySortExt lt (x0 :: x1 :: r) rst

/-- What `plot_top_countries` draws: the year it settled on and the rows
of the bar chart, in display order. -/
structure Chart where
  year : Option ℤ
  rows : List VizRow
deriving DecidableEq, Repr

/-- Display order of `sort_values("Value", ascending=False)`: larger
values first, null values last. -/
def valueDescBefore (a b : VizRow) : Bool :=
  match a.Value, b.Value with
  | some x, some y => decide (y < x)
  | some _, none => true
  | none, _ => false

/-- Stable insertion into a list ordered by `before`. -/
def insBefore {α : Type} (before : α → α → Bool) (x : α) : List α → List α
  | [] => [x]
  | y :: ys => if before x y then x :: y :: ys else y :: insBefore before x ys

/-- `year_data.sort_values("Value", ascending=False)` (line 92): sort by
Value descending, nulls last (ties keep a deterministic order; pandas
leaves tie order to its sort kind, which no claim depends on). -/
def sortValuesDesc (rows : List VizRow) : List VizRow :=
  List.foldr (insBefore valueDescBefore) [] rows

/-- `.head(n)` after the descending sort. -/
def topByValue (rows : List VizRow) (n : Nat) : List VizRow :=
  (sortValuesDesc rows).take n

/-- `plot_top_countries(df, year, n)` (lines 74-113): filter to the
requested year; when empty, recompute the year as
`sorted(df['Year'].unique())[-1]` (or return without a chart when the
table is empty); then chart the top `n` rows of the chosen year by Value
descending.  `none` models returning without producing a chart. -/
def plot_top_countries (df : List VizRow) (year : ℤ) (n : Nat) : Option Chart :=
  let yd := df.filter (fun r => pyEq r.Year (some year))
  if yd.isEmpty then
    let avail := pySorted pyLt (pdUnique (df.map VizRow.Year))
    match avail.getLast? with
    | none => none
    | some y2 =>
      some { year := y2,
             rows := topByValue (df.filter (fun r => pyEq r.Year y2)) n }
  else
    some { year := some year, rows := topByValue yd n }

/-- The C6 example table: years 2, `NaN`, 1. -/
def c6df : List VizRow :=
  [⟨"A", some 2, some 1⟩, ⟨"B", none, some 1⟩, ⟨"C", some 1, some 1⟩]

/-- C6 counterexample: the table holds a row with (non-null) year 2, yet
`plot_top_countries` for the absent year 5 falls back to year 1, not to
the most recent year 2: with a `NaN` year present, CPython's `sorted`
receives an inconsistent comparison and `[2, NaN, 1]` counts as one
already-ascending run, so `available_years[-1]` is 1. -/
theorem plot_top_countries_c6_counterexample :
    plot_top_countries c6df 5 10
      = some { year := some 1, rows := [⟨"C", some 1, some 1⟩] }
    ∧ (some 2 : Option ℤ) ∈ c6df.map VizRow.Year
    ∧ (1 : ℤ) < 2 :=
  ⟨by rfl, by decide, by decide⟩

/-! ### Correctness of the modelled sort on `NaN`-free input -/

/-- Indexing a sorted list is monotone. -/
theorem sorted_getD_mono {a : List ℤ} (ha : a.Sorted (· ≤ ·)) {i j : Nat}
    (hij : i ≤ j) (hj : j < a.length) (d : ℤ) : a.getD i d ≤ a.getD j d := by
  have hi : i < a.length := lt_of_le_of_lt hij hj
  rw [List.getD_eq_getElem a d hi, List.getD_eq_getElem a d hj]
  have h := ha.rel_get_of_le
    (show (⟨i, hi⟩ : Fin a.length) ≤ ⟨j, hj⟩ from hij)
  simpa using h

/-- On a sorted slice whose outside already satisfies the split,
`binLoc` returns a split point: everything before it is `≤ pivot`,
everything from it on is `> pivot`. -/
theorem binLoc_spec {a : List ℤ} {pivot : ℤ} (ha : a.Sorted (· ≤ ·)) :
    ∀ l r, l ≤ r → r ≤ a.length →
      (∀ i, i < l → a.getD i pivot ≤ pivot) →
      (∀ i, r ≤ i → i < a.length → pivot < a.getD i pivot) →
      binLoc intLt a pivot l r ≤ a.length
      ∧ (∀ i, i < binLoc intLt a pivot l r → a.getD i pivot ≤ pivot)
      ∧ (∀ i, binLoc intLt a pivot l r ≤ i → i < a.length →
          pivot < a.getD i pivot) := by
  intro l r
  induction l, r using binLoc.induct intLt a pivot with
  | case1 l r h hlt ih =>
    intro _ hr hleft hright
    rw [binLoc.eq_def, dif_pos h, if_pos hlt]
    have hp : l + (r - l) / 2 < r := by omega
    have hpiv : pivot < a.getD (l + (r - l) / 2) pivot :=
      of_decide_eq_true hlt
    refine ih (by omega) (by omega) hleft ?_
    intro i hi hilen
    exact lt_of_lt_of_le hpiv (sorted_getD_mono ha hi hilen pivot)
  | case2 l r h hlt ih =>
    intro _ hr hleft hright
    rw [binLoc.eq_def, dif_pos h, if_neg hlt]
    have hp : l + (r - l) / 2 < r := by omega
    have hpiv : a.getD (l + (r - l) / 2) pivot ≤ pivot :=
      le_of_not_lt (fun hc => hlt (decide_eq_true hc))
    refine ih (by omega) hr ?_ hright
    intro i hi
    exact le_trans (sorted_getD_mono ha (by omega) (by omega) pivot) hpiv
  | case3 l r h =>
    intro hlr hr hleft hright
    rw [binLoc.eq_def, dif_neg h]
    have hlreq : l = r := by omega
    exact ⟨by omega, hleft, fun i hi hilen => hright i (by omega) hilen⟩

/-- Members of the kept front of the split are `≤ pivot`. -/
theorem mem_take_le {acc : List ℤ} {j : Nat} {pivot y : ℤ}
    (hleft : ∀ i, i < j → acc.getD i pivot ≤ pivot) (hy : y ∈ acc.take j) :
    y ≤ pivot := by
  obtain ⟨i, hi, hval⟩ := List.mem_iff_getElem.mp hy
  have hlen := hi
  rw [List.length_take] at hlen
  have hilen : i < acc.length := lt_of_lt_of_le hlen (min_le_right _ _)
  have hij : i < j := lt_of_lt_of_le hlen (min_le_left _ _)
  have : acc.getD i pivot = y := by
    rw [List.getD_eq_getElem acc pivot hilen, ← List.getElem_take acc, hval]
  rw [← this]
  exact hleft i hij

/-- Members of the tail of the split are `> pivot`. -/
theorem mem_drop_gt {acc : List ℤ} {j : Nat} {pivot z : ℤ}
    (hright : ∀ i, j ≤ i → i < acc.length → pivot < acc.getD i pivot)
    (hz : z ∈ acc.drop j) : pivot < z := by
  obtain ⟨i, hi, hval⟩ := List.mem_iff_getElem.mp hz
  have hlen := hi
  rw [List.length_drop] at hlen
  have hjlen : j + i < acc.length := by omega
  have : acc.getD (j + i) pivot = z := by
    rw [List.getD_eq_getElem acc pivot hjlen, ← List.getElem_drop acc, hval]
  rw [← this]
  exact hright (j + i) (by omega) hjlen

/-- `binInsert` is a permutation of the cons. -/
theorem binInsert_perm {α : Type} (lt : α → α → Bool) (acc : List α) (x : α) :
    (binInsert lt acc x).Perm (x :: acc) := by
  unfold binInsert
  have h := @List.perm_middle α x
    (acc.take (binLoc lt acc x 0 acc.length))
    (acc.drop (binLoc lt acc x 0 acc.length))
  rwa [List.take_append_drop] at h

/-- `binInsert` preserves sortedness. -/
theorem binInsert_sorted {acc : List ℤ} (ha : acc.Sorted (· ≤ ·)) (x : ℤ) :
    (binInsert intLt acc x).Sorted (· ≤ ·) := by
  obtain ⟨hlen, hleft, hright⟩ := binLoc_spec ha 0 acc.length (Nat.zero_le _)
    le_rfl (by omega) (by omega)
  unfold binInsert
  rw [List.Sorted, List.pairwise_append]
  refine ⟨ha.sublist (List.take_sublist _ _), ?_, ?_⟩
  · rw [List.pairwise_cons]
    exact ⟨fun z hz => le_of_lt (mem_drop_gt hright hz),
      ha.sublist (List.drop_sublist _ _)⟩
  · intro y hy z hz
    have hyp : y ≤ x := mem_take_le hleft hy
    rcases List.mem_cons.mp hz with rfl | hz2
    · exact hyp
    · exact le_trans hyp (le_of_lt (mem_drop_gt hright hz2))

/-- `binarySortExt` from a sorted run yields a sorted permutation of
run ++ rest. -/
theorem binarySortExt_ok (rest : List ℤ) :
    ∀ run : List ℤ, run.Sorted (· ≤ ·) →
      (binarySortExt intLt run rest).Sorted (· ≤ ·)
      ∧ (binarySortExt intLt run rest).Perm (run ++ rest) := by
  induction rest with
  | nil => intro run h; simpa [binarySortExt] using h
  | cons x rest ih =>
    intro run h
    have h2 := ih (binInsert intLt run x) (binInsert_sorted h x)
    simp only [binarySortExt, List.foldl_cons] at h2 ⊢
    refine ⟨h2.1, h2.2.trans ?_⟩
    have hstep : (binInsert intLt run x ++ rest).Perm ((x :: run) ++ rest) :=
      (binInsert_perm intLt run x).append_right rest
    exact hstep.trans List.perm_middle.symm

/-- Splitting off the weakly ascending initial run. -/
theorem takeRunAsc_spec :
    ∀ (l : List ℤ) (prev : ℤ) (r rst : List ℤ),
      takeRunAsc intLt prev l = (r, rst) →
      r ++ rst = l ∧ List.Chain (· ≤ ·) prev r := by
  intro l
  induction l with
  | nil =>
    intro prev r rst h
    simp only [takeRunAsc] at h
    injection h with h1 h2
    subst h1; subst h2
    exact ⟨rfl, List.Chain.nil⟩
  | cons y ys ih =>
    intro prev r rst h
    simp only [takeRunAsc] at h
    by_cases hlt : intLt y prev
    · rw [if_pos hlt] at h
      injection h with h1 h2
      subst h1; subst h2
      exact ⟨rfl, List.Chain.nil⟩
    · rw [if_neg hlt] at h
      obtain ⟨r2, rst2, he⟩ : ∃ r2 rst2, takeRunAsc intLt y ys = (r2, rst2) :=
        ⟨_, _, rfl⟩
      rw [he] at h
      injection h with h1 h2
      subst h1; subst h2
      obtain ⟨happ, hch⟩ := ih y r2 rst2 he
      refine ⟨by rw [List.cons_append, happ], ?_⟩
      exact List.Chain.cons
        (le_of_not_lt (fun hc => hlt (decide_eq_true hc))) hch

/-- Splitting off the strictly descending initial run. -/
theorem takeRunDesc_spec :
    ∀ (l : List ℤ) (prev : ℤ) (r rst : List ℤ),
      takeRunDesc intLt prev l = (r, rst) →
      r ++ rst = l ∧ List.Chain (· > ·) prev r := by
  intro l
  induction l with
  | nil =>
    intro prev r rst h
    simp only [takeRunDesc] at h
    injection h with h1 h2
    subst h1; subst h2
    exact ⟨rfl, List.Chain.nil⟩
  | cons y ys ih =>
    intro prev r rst h
    simp only [takeRunDesc] at h
    by_cases hlt : intLt y prev
    · rw [if_pos hlt] at h
      obtain ⟨r2, rst2, he⟩ : ∃ r2 rst2, takeRunDesc intLt y ys = (r2, rst2) :=
        ⟨_, _, rfl⟩
      rw [he] at h
      injection h with h1 h2
      subst h1; subst h2
      obtain ⟨happ, hch⟩ := ih y r2 rst2 he
      refine ⟨by rw [List.cons_append, happ], ?_⟩
      exact List.Chain.cons (of_decide_eq_true hlt) hch
    · rw [if_neg hlt] at h
      injection h with h1 h2
      subst h1; subst h2
      exact ⟨rfl, List.Chain.nil⟩

/-- The modelled CPython sort is a correct sort on `NaN`-free input. -/
theorem pySorted_ok (l : List ℤ) :
    (pySorted intLt l).Sorted (· ≤ ·) ∧ (pySorted intLt l).Perm l := by
  match l with
  | [] => exact ⟨List.sorted_nil, List.Perm.refl _⟩
  | [x] => exact ⟨List.sorted_singleton x, List.Perm.refl _⟩
  | x0 :: x1 :: rest =>
    by_cases hlt : intLt x1 x0
    · obtain ⟨r2, rst2, he⟩ : ∃ a b, takeRunDesc intLt x1 rest = (a, b) :=
        ⟨_, _, rfl⟩
      obtain ⟨happ, hch⟩ := takeRunDesc_spec rest x1 r2 rst2 he
      have hshow : pySorted intLt (x0 :: x1 :: rest)
          = binarySortExt intLt (x0 :: x1 :: r2).reverse rst2 := by
        simp only [pySorted, if_pos hlt, he]
      have hpairgt : List.Pairwise (· > ·) (x0 :: x1 :: r2) :=
        List.chain_iff_pairwise.mp
          (List.Chain.cons (of_decide_eq_true hlt) hch)
      have hrun : ((x0 :: x1 :: r2).reverse).Sorted (· ≤ ·) := by
        rw [List.Sorted, List.pairwise_reverse]
        exact hpairgt.imp (fun h => le_of_lt h)
      obtain ⟨hs, hp⟩ := binarySortExt_ok rst2 _ hrun
      rw [hshow]
      refine ⟨hs, hp.trans ?_⟩
      have : ((x0 :: x1 :: r2).reverse ++ rst2).Perm ((x0 :: x1 :: r2) ++ rst2) :=
        (List.reverse_perm _).append_right rst2
      refine this.trans ?_
      rw [List.cons_append, List.cons_append, happ]
    · obtain ⟨r2, rst2, he⟩ : ∃ a b, takeRunAsc intLt x1 rest = (a, b) :=
        ⟨_, _, rfl⟩
      obtain ⟨happ, hch⟩ := takeRunAsc_spec rest x1 r2 rst2 he
      have hshow : pySorted intLt (x0 :: x1 :: rest)
          = binarySortExt intLt (x0 :: x1 :: r2) rst2 := by
        simp only [pySorted, if_neg hlt, he]
      have hrun : (x0 :: x1 :: r2).Sorted (· ≤ ·) := by
        rw [List.Sorted]
        exact List.chain_iff_pairwise.mp
          (List.Chain.cons
            (le_of_not_lt (fun hc => hlt (decide_eq_true hc))) hch)
      obtain ⟨hs, hp⟩ := binarySortExt_ok rst2 _ hrun
      rw [hshow]
      refine ⟨hs, hp.trans ?_⟩
      rw [List.cons_append, List.cons_append, happ]

/-- The last element of a sorted list bounds every member. -/
theorem sorted_getLast?_max {l : List ℤ} (h : l.Sorted (· ≤ ·)) {m : ℤ}
    (hm : l.getLast? = some m) : ∀ x ∈ l, x ≤ m := by
  obtain ⟨ys, rfl⟩ := List.getLast?_eq_some_iff.mp hm
  intro x hx
  rcases List.mem_append.mp hx with h1 | h2
  · exact (List.pairwise_append.mp h).2.2 x h1 m (List.mem_singleton_self m)
  · rw [List.mem_singleton.mp h2]

/-! ### Transport of the sort from `ℤ` to the `NaN`-free `Option ℤ` column -/

/-- `getD` through `map some`. -/
theorem getD_map_some (l : List ℤ) (i : Nat) (d : ℤ) :
    (l.map some).getD i (some d) = some (l.getD i d) := by
  by_cases h : i < l.length
  · rw [List.getD_eq_getElem _ _ h,
      List.getD_eq_getElem _ _ (by simpa using h), List.getElem_map]
  · rw [List.getD_eq_default _ _ (by simpa using Nat.le_of_not_lt h),
      List.getD_eq_default _ _ (Nat.le_of_not_lt h)]

/-- On a `NaN`-free column the Python comparison is the integer one. -/
theorem binLoc_map_some (a : List ℤ) (pivot : ℤ) :
    ∀ l r, binLoc pyLt (a.map some) (some pivot) l r = binLoc intLt a pivot l r := by
  intro l r
  induction l, r using binLoc.induct intLt a pivot with
  | case1 l r h hlt ih =>
    rw [binLoc.eq_def pyLt (a.map some) (some pivot) l r,
      binLoc.eq_def intLt a pivot l r, dif_pos h, dif_pos h]
    have hcond : pyLt (some pivot) ((a.map some).getD (l + (r - l) / 2) (some pivot))
        = intLt pivot (a.getD (l + (r - l) / 2) pivot) := by
      rw [getD_map_some]; rfl
    rw [hcond, if_pos hlt, if_pos hlt]
    exact ih
  | case2 l r h hlt ih =>
    rw [binLoc.eq_def pyLt (a.map some) (some pivot) l r,
      binLoc.eq_def intLt a pivot l r, dif_pos h, dif_pos h]
    have hcond : pyLt (some pivot) ((a.map some).getD (l + (r - l) / 2) (some pivot))
        = intLt pivot (a.getD (l + (r - l) / 2) pivot) := by
      rw [getD_map_some]; rfl
    rw [hcond, if_neg hlt, if_neg hlt]
    exact ih
  | case3 l r h =>
    rw [binLoc.eq_def pyLt (a.map some) (some pivot) l r,
      binLoc.eq_def intLt a pivot l r, dif_neg h, dif_neg h]

/-- `binInsert` through `map some`. -/
theorem binInsert_map_some (acc : List ℤ) (x : ℤ) :
    binInsert pyLt (acc.map some) (some x) = (binInsert intLt acc x).map some := by
  unfold binInsert
  rw [List.length_map, binLoc_map_some]
  rw [List.map_append, List.map_cons, List.map_take, List.map_drop]

/-- `binarySortExt` through `map some`. -/
theorem binarySortExt_map_some (rest : List ℤ) :
    ∀ run : List ℤ,
      binarySortExt pyLt (run.map some) (rest.map some)
        = (binarySortExt intLt run rest).map some := by
  induction rest with
  | nil => intro run; rfl
  | cons x rest ih =>
    intro run
    simp only [binarySortExt, List.map_cons, List.foldl_cons] at ih ⊢
    rw [binInsert_map_some]
    exact ih _

/-- `takeRunAsc` through `map some`. -/
theorem takeRunAsc_map_some (l : List ℤ) :
    ∀ prev : ℤ,
      takeRunAsc pyLt (some prev) (l.map some)
        = ((takeRunAsc intLt prev l).1.map some,
           (takeRunAsc intLt prev l).2.map some) := by
  induction l with
  | nil => intro prev; rfl
  | cons y ys ih =>
    intro prev
    simp only [List.map_cons, takeRunAsc]
    have hcond : pyLt (some y) (some prev) = intLt y prev := rfl
    rw [hcond]
    by_cases hlt : intLt y prev
    · rw [if_pos hlt, if_pos hlt]; rfl
    · rw [if_neg hlt, if_neg hlt, ih y]; simp

/-- `takeRunDesc` through `map some`. -/
theorem takeRunDesc_map_some (l : List ℤ) :
    ∀ prev : ℤ,
      takeRunDesc pyLt (some prev) (l.map some)
        = ((takeRunDesc intLt prev l).1.map some,
           (takeRunDesc intLt prev l).2.map some) := by
  induction l with
  | nil => intro prev; rfl
  | cons y ys ih =>
    intro prev
    simp only [List.map_cons, takeRunDesc]
    have hcond : pyLt (some y) (some prev) = intLt y prev := rfl
    rw [hcond]
    by_cases hlt : intLt y prev
    · rw [if_pos hlt, if_pos hlt, ih y]; simp
    · rw [if_neg hlt, if_neg hlt]; rfl

/-- `pySorted` through `map some`: sorting a `NaN`-free column is
sorting its integers. -/
theorem pySorted_map_some (l : List ℤ) :
    pySorted pyLt (l.map some) = (pySorted intLt l).map some := by
  match l with
  | [] => rfl
  | [x] => rfl
  | x0 :: x1 :: rest =>
    have hcond : pyLt (some x1) (some x0) = intLt x1 x0 := rfl
    by_cases hlt : intLt x1 x0
    · obtain ⟨r2, rst2, he⟩ : ∃ a b, takeRunDesc intLt x1 rest = (a, b) :=
        ⟨_, _, rfl⟩
      simp only [List.map_cons, pySorted, hcond, if_pos hlt,
        takeRunDesc_map_some, he]
      rw [← List.map_cons, ← List.map_cons, ← List.map_reverse,
        binarySortExt_map_some]
    · obtain ⟨r2, rst2, he⟩ : ∃ a b, takeRunAsc intLt x1 rest = (a, b) :=
        ⟨_, _, rfl⟩
      simp only [List.map_cons, pySorted, hcond, if_neg hlt,
        takeRunAsc_map_some, he]
      rw [← List.map_cons, ← List.map_cons, binarySortExt_map_some]

/-- The deduplication fold commutes with an injective map. -/
theorem dedupLoop_map_inj {α β : Type} [DecidableEq α] [DecidableEq β]
    {f : α → β} (hf : Function.Injective f) (xs : List α) :
    ∀ acc, List.foldl dedupStep (acc.map f) (xs.map f)
      = (List.foldl dedupStep acc xs).map f := by
  induction xs with
  | nil => intro acc; rfl
  | cons x xs ih =>
    intro acc
    simp only [List.map_cons, List.foldl_cons, dedupStep]
    by_cases hx : x ∈ acc
    · rw [if_pos (List.mem_map_of_mem f hx), if_pos hx]; exact ih acc
    · rw [if_neg (fun hc => hx ((List.mem_map_of_injective hf).mp hc)),
        if_neg hx]
      have hmap : acc.map f ++ [f x] = (acc ++ [x]).map f := by
        rw [List.map_append, List.map_singleton]
      rw [hmap]
      exact ih _

/-- `pdUnique` commutes with an injective map. -/
theorem pdUnique_map_inj {α β : Type} [DecidableEq α] [DecidableEq β]
    {f : α → β} (hf : Function.Injective f) (xs : List α) :
    pdUnique (xs.map f) = (pdUnique xs).map f :=
  dedupLoop_map_inj hf xs []

/-- A column with no `NaN` is the image of its integer values. -/
theorem eq_map_some_of_ne_none {L : List (Option ℤ)} (h : ∀ x ∈ L, x ≠ none) :
    L = (L.reduceOption).map some := by
  induction L with
  | nil => rfl
  | cons x t ih =>
    cases x with
    | none => exact absurd rfl (h none (List.mem_cons_self _ _))
    | some v =>
      rw [List.reduceOption_cons_of_some, List.map_cons]
      rw [← ih (fun y hy => h y (List.mem_cons_of_mem _ hy))]

/-- C6 amended: on a table whose Year column has no nulls, calling
`plot_top_countries` with a year that has no rows falls back to the most
recent (maximum) year `M` present in the table and produces a chart for
`M` — the top `n` rows of year `M` by Value descending — instead of
failing.  (With null years present the fallback can pick a year other
than the most recent one, per the counterexample.) -/
theorem plot_top_countries_year_fallback (df : List VizRow) (year : ℤ)
    (n : Nat) (M : ℤ)
    (hnn : ∀ r ∈ df, r.Year ≠ none)
    (habs : ∀ r ∈ df, r.Year ≠ some year)
    (hMmem : some M ∈ df.map VizRow.Year)
    (hMmax : ∀ r ∈ df, ∀ y : ℤ, r.Year = some y → y ≤ M) :
    plot_top_countries df year n
      = some { year := some M,
               rows := topByValue (df.filter (fun r => pyEq r.Year (some M))) n } := by
  have hyd : df.filter (fun r => pyEq r.Year (some year)) = [] := by
    rw [List.filter_eq_nil_iff]
    intro r hr
    cases hy : r.Year with
    | none => simp [pyEq]
    | some y =>
      have hne : y ≠ year := fun hc => habs r hr (by rw [hy, hc])
      simp [pyEq, hne]
  set zs := (df.map VizRow.Year).reduceOption with hzs
  have hys : df.map VizRow.Year = zs.map some :=
    eq_map_some_of_ne_none (by
      intro x hx
      obtain ⟨r, hr, rfl⟩ := List.mem_map.mp hx
      exact hnn r hr)
  have havail : pySorted pyLt (pdUnique (df.map VizRow.Year))
      = (pySorted intLt (pdUnique zs)).map some := by
    rw [hys, pdUnique_map_inj (Option.some_injective ℤ), pySorted_map_some]
  obtain ⟨hsort, hperm⟩ := pySorted_ok (pdUnique zs)
  have hMzs : M ∈ zs := by
    rw [hzs, List.reduceOption_mem_iff]
    exact hMmem
  have hMw : M ∈ pySorted intLt (pdUnique zs) :=
    hperm.mem_iff.mpr ((pdUnique_mem zs M).mpr hMzs)
  obtain ⟨m, hlast⟩ : ∃ m, (pySorted intLt (pdUnique zs)).getLast? = some m := by
    cases hL : (pySorted intLt (pdUnique zs)).getLast? with
    | none =>
      exact absurd (List.getLast?_eq_none_iff.mp hL) (List.ne_nil_of_mem hMw)
    | some m => exact ⟨m, rfl⟩
  have hmM : m = M := by
    have hmmem : m ∈ pySorted intLt (pdUnique zs) := by
      obtain ⟨ys, hys2⟩ := List.getLast?_eq_some_iff.mp hlast
      rw [hys2]
      exact List.mem_append.mpr (Or.inr (List.mem_singleton_self m))
    have hmzs : m ∈ zs := (pdUnique_mem zs m).mp (hperm.mem_iff.mp hmmem)
    have : some m ∈ df.map VizRow.Year := by
      rw [hzs, List.reduceOption_mem_iff] at hmzs
      exact hmzs
    obtain ⟨r, hr, hry⟩ := List.mem_map.mp this
    exact le_antisymm (hMmax r hr m hry) (sorted_getLast?_max hsort hlast M hMw)
  subst hmM
  unfold plot_top_countries
  rw [hyd]
  simp only [List.isEmpty_nil, if_pos]
  rw [havail, List.getLast?_map, hlast]
  rfl

/-- A no-null-years table for the C6 amended witness: years 3 and 1,
year 7 absent. -/
def c6dfW : List VizRow :=
  [⟨"A", some 3, some 5⟩, ⟨"B", some 1, some 2⟩]

/-- Concrete instance of the amended C6: requesting absent year 7 falls
back to the maximum year 3 and charts its rows. -/
theorem plot_top_countries_year_fallback_witness :
    plot_top_countries c6dfW 7 10
      = some { year := some 3,
               rows := topByValue (c6dfW.filter (fun r => pyEq r.Year (some 3))) 10 } :=
  plot_top_countries_year_fallback c6dfW 7 10 3
    (by decide) (by decide) (by decide) (by decide)

end Conn
